import Mathlib

/-!
Shallow embedding of `scripts/generate_mapping.py`: a generator that turns
CSV source tables into append-only JSON mapping documents.

Modelling choices:
* A parsed CSV file is a header (list of column names) plus data rows
  (lists of cell strings); `csv.DictReader`'s per-row dictionary
  `dict(zip(fieldnames, row))` is modelled by building an ordered
  association list with Python-dict insertion semantics (`insertOD`);
  a missing cell reads as the empty string.
* Python dictionaries are ordered association lists (`List (String × α)`)
  with `insertOD` (update value in place at the first occurrence of the
  key, otherwise append) and `lookupOD`.
* JSON scalar values are `JVal` (strings and natural-number ids).
* `sys.exit(1)` error paths are an `Except Err` result; the error
  constructors carry the data the printed message reports (for
  `RemovedKeyError`, the set of missing keys).
* File contents on disk are the in-memory `Doc` value; timestamps are an
  ambient `ts` argument (the value `now_iso()` would return).
-/

set_option autoImplicit false

namespace SchemaGen

/-- A JSON scalar value appearing in a mapping document record. -/
inductive JVal where
  | str (s : String)
  | nat (n : Nat)
  deriving DecidableEq, Repr

/-- An entry read from CSV: an ordered dictionary from attribute name to
trimmed string value (Python `dict`). -/
abbrev Entry := List (String × String)

/-- A record of the generated document: an ordered dictionary from
attribute name to JSON value (`id` plus the CSV attributes). -/
abbrev Record := List (String × JVal)

/-- Python `str.strip()`: drop leading and trailing whitespace
characters (structural recursion over the character list). -/
def pyStrip (s : String) : String :=
  ⟨((s.data.dropWhile Char.isWhitespace).reverse.dropWhile Char.isWhitespace).reverse⟩

/-- Python dict insertion: if the key is present, update its value in
place (keeping its position); otherwise append the binding at the end. -/
def insertOD {α : Type} : List (String × α) → String → α → List (String × α)
  | [], k, v => [(k, v)]
  | p :: d, k, v => if p.1 = k then (k, v) :: d else p :: insertOD d k v

/-- Python dict lookup (first occurrence; dictionaries built with
`insertOD` have unique keys, so this is the unique binding). -/
def lookupOD {α : Type} : List (String × α) → String → Option α
  | [], _ => none
  | p :: d, k => if p.1 = k then some p.2 else lookupOD d k

/-- `dict(zip(header, row))`: sequentially insert the header/cell pairs
into an (initially empty) ordered dictionary. -/
def dictOfPairs (ps : List (String × String)) : List (String × String) :=
  ps.foldl (fun d p => insertOD d p.1 p.2) []

/-- `row[col]` for a `csv.DictReader` row: look the column up in
`dict(zip(header, row))`; a missing cell reads as `""`. -/
def rowGet (header row : List String) (col : String) : String :=
  (lookupOD (dictOfPairs (header.zip row)) col).getD ""

/-- A parsed CSV file: its filename, header row and data rows. -/
structure CSVFile where
  name : String
  header : List String
  rows : List (List String)

/-- Columns that are never included in the generated JSON output. -/
def IGNORED_COLUMNS : List String := ["comment"]

/-- `output_fields`: the header columns whose trimmed name is not
ignored. -/
def outputFields (header : List String) : List String :=
  header.filter (fun c => !(IGNORED_COLUMNS.contains (pyStrip c)))

/-- The entry built from one data row:
`\x7bcol.strip(): row[col].strip() for col in output_fields\x7d`. -/
def mkEntry (header row : List String) : Entry :=
  (outputFields header).foldl
    (fun d c => insertOD d (pyStrip c) (pyStrip (rowGet header row c))) []

/-- The error exits of the script (`sys.exit(1)` with a diagnostic). -/
inductive Err where
  | noInput
  | schemaErr (file : String)
  | duplicateKey (key : String)
  | emptySource
  | removedKey (keys : List String)
  | reorderedKey
  deriving DecidableEq, Repr

/-- The row loop of `read_csv_entries` for one file: trim the key, skip
empty keys, fail on a key already seen (cumulatively), otherwise append
the entry and record the key. -/
def readRows (header : List String) :
    List (List String) → List Entry → List String →
    Except Err (List Entry × List String)
  | [], entries, seen => .ok (entries, seen)
  | row :: rest, entries, seen =>
    let key := pyStrip (rowGet header row "key")
    if key = "" then readRows header rest entries seen
    else if key ∈ seen then .error (.duplicateKey key)
    else readRows header rest (entries ++ [mkEntry header row]) (seen ++ [key])

/-- The file loop of `read_csv_entries`: require a `key` column header,
then process the rows, carrying entries and seen keys across files. -/
def readFiles : List CSVFile → List Entry → List String → Except Err (List Entry)
  | [], entries, _ => .ok entries
  | f :: rest, entries, seen =>
    if "key" ∈ f.header then
      match readRows f.header f.rows entries seen with
      | .error e => .error e
      | .ok (entries2, seen2) => readFiles rest entries2 seen2
    else .error (.schemaErr f.name)

/-- `read_csv_entries`: the input is the list of `*.csv` files of the
source directory, already in sorted filename order; no files is an
error. -/
def read_csv_entries (files : List CSVFile) : Except Err (List Entry) :=
  match files with
  | [] => .error .noInput
  | _ => readFiles files [] []

/-- `validate_append_only`: every existing key must still be present
(else `RemovedKeyError` carrying the set of missing keys), and the first
`len(existing_keys)` new keys must equal the existing keys exactly (else
`ReorderedKeyError`). -/
def validate_append_only (existingKeys newKeys : List String) : Except Err Unit :=
  let missing := (existingKeys.filter (fun k => !(newKeys.contains k))).dedup
  if missing ≠ [] then .error (.removedKey missing)
  else if newKeys.take existingKeys.length ≠ existingKeys then .error .reorderedKey
  else .ok ()

/-- `\x7b"id": i, **entry\x7d`: start from the `id` binding and insert
every entry attribute in order (Python dict merge). -/
def buildRecord (i : Nat) (e : Entry) : Record :=
  e.foldl (fun d p => insertOD d p.1 (JVal.str p.2)) [("id", JVal.nat i)]

/-- `entry["key"]` (dict lookup on a generated record, `""` default for
totality; generated records always carry the binding). -/
def recordKey (r : Record) : String :=
  match lookupOD r "key" with
  | some (JVal.str s) => s
  | _ => ""

/-- `e[k]` dict lookup on an entry (`""` default for totality). -/
def entryGet (e : Entry) (k : String) : String :=
  (lookupOD e k).getD ""

/-- `[\x7b"id": i, **entry\x7d for i, entry in enumerate(entries)]`,
with the running index made explicit. -/
def newDataFrom (i : Nat) : List Entry → List Record
  | [] => []
  | e :: es => buildRecord i e :: newDataFrom (i + 1) es

/-- The generated `data` array. -/
def newData (entries : List Entry) : List Record :=
  newDataFrom 0 entries

/-- A generated mapping document: `$schema`, `lastUpdated`, `data`. -/
structure Doc where
  schema : String
  lastUpdated : String
  data : List Record
  deriving DecidableEq, Repr

/-- Outcome of one `generate_mapping` call that did not error. -/
inductive WriteAction where
  | skipped
  | wrote (d : Doc)
  deriving DecidableEq, Repr

/-- `generate_mapping`: read the entries, reject an empty entry list,
validate append-only against the existing document (when present), then
either skip the write (existing `data` equals the new one) or write the
new document with the ambient timestamp `ts`. -/
def generate_mapping (files : List CSVFile) (existing : Option Doc)
    (schemaRef ts : String) : Except Err WriteAction :=
  match read_csv_entries files with
  | .error e => .error e
  | .ok entries =>
    if entries = [] then .error .emptySource
    else
      let keys := entries.map (fun e => entryGet e "key")
      let validation : Except Err Unit :=
        match existing with
        | none => .ok ()
        | some ex => validate_append_only (ex.data.map recordKey) keys
      match validation with
      | .error e => .error e
      | .ok _ =>
        let nd := newData entries
        if existing.map Doc.data = some nd then .ok .skipped
        else .ok (.wrote ⟨schemaRef, ts, nd⟩)

/-- One pipeline run for one mapping: the file system state is the
document stored at the output path (`none` when absent); the result is
the new state plus whether a write happened. -/
def runPipeline (files : List CSVFile) (fileState : Option Doc)
    (schemaRef ts : String) : Except Err (Option Doc × Bool) :=
  match generate_mapping files fileState schemaRef ts with
  | .error e => .error e
  | .ok .skipped => .ok (fileState, false)
  | .ok (.wrote d) => .ok (some d, true)

/-- Model of `write_json`'s effect on the output file: the sequence of
file contents it passes through.  `open(path, "w")` truncates the file
in place, then `json.dump` writes the serialized document, then the
trailing newline is written.  A crash leaves the file in one of the
intermediate states. -/
def write_json_states (prior content : String) : List String :=
  [prior, "", content, content ++ "\x0a"]

/-- The last element of a list satisfying a predicate (proof-layer helper
describing repeated dictionary insertion). -/
def lastMatch? {β : Type} (p : β → Bool) : List β → Option β
  | [] => none
  | b :: l =>
    match lastMatch? p l with
    | some c => some c
    | none => if p b then some b else none

/-- The trimmed non-empty `key` cells of one file's rows, in order. -/
def rowKeys (header : List String) (rows : List (List String)) : List String :=
  (rows.map (fun r => pyStrip (rowGet header r "key"))).filter (fun k => k ≠ "")

/-- All trimmed non-empty keys across the files of one source, in file
then row order. -/
def allSourceKeys (files : List CSVFile) : List String :=
  files.flatMap (fun f => rowKeys f.header f.rows)

/-- Drop the data rows whose key cell is empty after trimming. -/
def dropEmptyKeyRows (f : CSVFile) : CSVFile :=
  ⟨f.name, f.header, f.rows.filter (fun r => pyStrip (rowGet f.header r "key") ≠ "")⟩

/-- Python-dict key accumulation: add each key at the end unless already
present (insertion order, first occurrence kept). -/
def pyAddAll (init l : List String) : List String :=
  l.foldl (fun ks k => if k ∈ ks then ks else ks ++ [k]) init


theorem lookupOD_insertOD {α : Type} (d : List (String × α)) (k k' : String) (v : α) :
    lookupOD (insertOD d k v) k' = if k' = k then some v else lookupOD d k' := by
  induction d with
  | nil =>
    simp only [insertOD, lookupOD]
    by_cases h : k = k' <;> simp [h, eq_comm]
  | cons p d ih =>
    simp only [insertOD]
    by_cases h : p.1 = k
    · simp only [if_pos h, lookupOD]
      by_cases h' : k' = k <;> simp_all [eq_comm]
    · simp only [if_neg h, lookupOD, ih]
      by_cases h1 : p.1 = k' <;> by_cases h2 : k' = k <;> simp_all

theorem lastMatch?_eq_none {β : Type} (p : β → Bool) (l : List β)
    (h : ∀ b ∈ l, p b = false) : lastMatch? p l = none := by
  induction l with
  | nil => rfl
  | cons b l ih =>
    have h1 := ih (fun c hc => h c (List.mem_cons_of_mem _ hc))
    simp [lastMatch?, h1, h b (List.mem_cons_self b l)]

theorem lookupOD_foldl_insert {β α : Type} (kf : β → String) (vf : β → α)
    (l : List β) (init : List (String × α)) (k : String) :
    lookupOD (l.foldl (fun d c => insertOD d (kf c) (vf c)) init) k
      = match lastMatch? (fun c => kf c == k) l with
        | some c => some (vf c)
        | none => lookupOD init k := by
  induction l generalizing init with
  | nil => simp [lastMatch?]
  | cons b l ih =>
    simp only [List.foldl_cons, lastMatch?, ih]
    cases h : lastMatch? (fun c => kf c == k) l with
    | some c => simp
    | none =>
      simp only [lookupOD_insertOD]
      by_cases hb : kf b = k
      · simp [hb]
      · simp [hb, Ne.symm hb]

theorem map_fst_insertOD {α : Type} (d : List (String × α)) (k : String) (v : α) :
    (insertOD d k v).map Prod.fst
      = if k ∈ d.map Prod.fst then d.map Prod.fst else d.map Prod.fst ++ [k] := by
  induction d with
  | nil => simp [insertOD]
  | cons p d ih =>
    simp only [insertOD]
    by_cases h : p.1 = k
    · simp [h]
    · simp only [if_neg h, List.map_cons, ih]
      by_cases h2 : k ∈ d.map Prod.fst <;> simp_all [Ne.symm h]

theorem nodup_map_fst_insertOD {α : Type} {d : List (String × α)}
    (hd : (d.map Prod.fst).Nodup) (k : String) (v : α) :
    ((insertOD d k v).map Prod.fst).Nodup := by
  rw [map_fst_insertOD]
  by_cases h : k ∈ d.map Prod.fst
  · simpa [h]
  · simp [h, List.nodup_append, hd, List.disjoint_singleton]

theorem lookupOD_eq_none_iff {α : Type} (d : List (String × α)) (k : String) :
    lookupOD d k = none ↔ ∀ p ∈ d, p.1 ≠ k := by
  induction d with
  | nil => simp [lookupOD]
  | cons p d ih => by_cases h : p.1 = k <;> simp [lookupOD, h, ih]

theorem lastMatch?_fst_nodup {α : Type} {e : List (String × α)}
    (h : (e.map Prod.fst).Nodup) (k : String) :
    (lastMatch? (fun p => p.1 == k) e).map Prod.snd = lookupOD e k := by
  induction e with
  | nil => rfl
  | cons p e ih =>
    simp only [List.map_cons, List.nodup_cons] at h
    obtain ⟨hp, he⟩ := h
    by_cases hk : p.1 = k
    · have hnone : lastMatch? (fun q : String × α => q.1 == k) e = none := by
        apply lastMatch?_eq_none
        intro b hb
        simp only [beq_eq_false_iff_ne, ne_eq]
        intro hbk
        exact hp (by rw [hk, ← hbk]; exact List.mem_map_of_mem Prod.fst hb)
      simp [lastMatch?, hnone, lookupOD, hk]
    · simp only [lastMatch?, lookupOD, if_neg hk]
      rw [← ih he]
      cases hm : lastMatch? (fun q : String × α => q.1 == k) e <;> simp [hk]


theorem map_fst_foldl_insert {β α : Type} (kf : β → String) (vf : β → α)
    (l : List β) (init : List (String × α)) :
    (l.foldl (fun d c => insertOD d (kf c) (vf c)) init).map Prod.fst
      = l.foldl (fun ks c => if kf c ∈ ks then ks else ks ++ [kf c])
          (init.map Prod.fst) := by
  induction l generalizing init with
  | nil => rfl
  | cons b l ih =>
    simp only [List.foldl_cons, ih, map_fst_insertOD]

theorem nodup_map_fst_foldl_insert {β α : Type} (kf : β → String) (vf : β → α)
    (l : List β) (init : List (String × α)) (h : (init.map Prod.fst).Nodup) :
    ((l.foldl (fun d c => insertOD d (kf c) (vf c)) init).map Prod.fst).Nodup := by
  induction l generalizing init with
  | nil => simpa
  | cons b l ih => exact ih _ (nodup_map_fst_insertOD h _ _)

theorem lookupOD_buildRecord {e : Entry} (h : (e.map Prod.fst).Nodup)
    (i : Nat) (k : String) (hk : k ≠ "id") :
    lookupOD (buildRecord i e) k = (lookupOD e k).map JVal.str := by
  have h2 := lookupOD_foldl_insert Prod.fst
    (fun p : String × String => JVal.str p.2) e [("id", JVal.nat i)] k
  rw [buildRecord]
  rw [h2]
  rw [← lastMatch?_fst_nodup h k]
  cases hm : lastMatch? (fun p : String × String => p.1 == k) e with
  | some c => simp
  | none => simp [lookupOD, Ne.symm hk]

theorem recordKey_buildRecord {e : Entry} (h : (e.map Prod.fst).Nodup) (i : Nat) :
    recordKey (buildRecord i e) = entryGet e "key" := by
  rw [recordKey, lookupOD_buildRecord h i "key" (by decide), entryGet]
  cases lookupOD e "key" <;> simp

theorem lookupOD_buildRecord_id {e : Entry} (h : lookupOD e "id" = none) (i : Nat) :
    lookupOD (buildRecord i e) "id" = some (JVal.nat i) := by
  have h2 := lookupOD_foldl_insert Prod.fst
    (fun p : String × String => JVal.str p.2) e [("id", JVal.nat i)] "id"
  rw [buildRecord, h2]
  have hnone : lastMatch? (fun p : String × String => p.1 == "id") e = none := by
    apply lastMatch?_eq_none
    intro b hb
    simp only [beq_eq_false_iff_ne, ne_eq]
    exact (lookupOD_eq_none_iff e "id").1 h b hb
  rw [hnone]
  rfl

theorem newDataFrom_length (i : Nat) (es : List Entry) :
    (newDataFrom i es).length = es.length := by
  induction es generalizing i with
  | nil => rfl
  | cons e es ih => simp [newDataFrom, ih]

theorem newDataFrom_getElem? (i j : Nat) (es : List Entry) :
    (newDataFrom i es)[j]? = es[j]?.map (buildRecord (i + j)) := by
  induction es generalizing i j with
  | nil => simp [newDataFrom]
  | cons e es ih =>
    cases j with
    | zero => simp [newDataFrom]
    | succ j =>
      have harith : i + 1 + j = i + (j + 1) := by omega
      simp only [newDataFrom, List.getElem?_cons_succ, ih, harith]

theorem newDataFrom_map_recordKey (i : Nat) (es : List Entry)
    (h : ∀ e ∈ es, ((e : Entry).map Prod.fst).Nodup) :
    (newDataFrom i es).map recordKey = es.map (fun e => entryGet e "key") := by
  induction es generalizing i with
  | nil => rfl
  | cons e es ih =>
    simp only [newDataFrom, List.map_cons]
    rw [recordKey_buildRecord (h e (List.mem_cons_self e es)) i,
      ih _ (fun x hx => h x (List.mem_cons_of_mem _ hx))]

theorem mem_missing_iff (ex new : List String) (k : String) :
    k ∈ (ex.filter (fun k => !(new.contains k))).dedup ↔ k ∈ ex ∧ ¬ k ∈ new := by
  simp [List.mem_dedup, List.mem_filter]

theorem missing_eq_nil_iff (ex new : List String) :
    (ex.filter (fun k => !(new.contains k))).dedup = [] ↔ ∀ k ∈ ex, k ∈ new := by
  rw [List.dedup_eq_nil, List.filter_eq_nil_iff]
  simp

theorem validate_ok_iff (ex new : List String) :
    validate_append_only ex new = .ok () ↔ new.take ex.length = ex := by
  rw [validate_append_only]
  by_cases hm : (ex.filter (fun k => !(new.contains k))).dedup = []
  · simp only [hm, ne_eq, not_true_eq_false, if_false, ite_not]
    by_cases hp : new.take ex.length = ex <;> simp [hp]
  · simp only [ne_eq, hm, not_false_eq_true, if_true]
    constructor
    · intro h; exact absurd h (by simp)
    · intro hp
      exfalso
      rw [missing_eq_nil_iff] at hm
      push_neg at hm
      obtain ⟨k, hk, hknew⟩ := hm
      exact hknew (List.take_subset _ _ (hp ▸ hk))

theorem validate_removed_iff (ex new : List String) :
    (∃ ms, validate_append_only ex new = .error (.removedKey ms))
      ↔ ∃ k, k ∈ ex ∧ ¬ k ∈ new := by
  constructor
  · intro hin
    obtain ⟨ms, h⟩ := hin
    rw [validate_append_only] at h
    by_cases hm : (ex.filter (fun k => !(new.contains k))).dedup = []
    · rw [if_neg (not_not_intro hm)] at h
      by_cases hp : new.take ex.length = ex
      · rw [if_neg (not_not_intro hp)] at h
        exact absurd h (by simp)
      · rw [if_pos hp] at h
        exact absurd h (by simp)
    · rw [missing_eq_nil_iff] at hm
      push_neg at hm
      obtain ⟨k, hk, hknew⟩ := hm
      exact ⟨k, hk, hknew⟩
  · intro hin
    obtain ⟨k, hk, hknew⟩ := hin
    have hm : ¬ (ex.filter (fun k => !(new.contains k))).dedup = [] := by
      rw [missing_eq_nil_iff]
      push_neg
      exact ⟨k, hk, hknew⟩
    exact ⟨(ex.filter (fun k => !(new.contains k))).dedup,
      by rw [validate_append_only, if_pos hm]⟩

theorem validate_reordered_iff (ex new : List String) :
    validate_append_only ex new = .error .reorderedKey
      ↔ (∀ k ∈ ex, k ∈ new) ∧ ¬ new.take ex.length = ex := by
  constructor
  · intro h
    rw [validate_append_only] at h
    by_cases hm : (ex.filter (fun k => !(new.contains k))).dedup = []
    · rw [if_neg (not_not_intro hm)] at h
      by_cases hp : new.take ex.length = ex
      · rw [if_neg (not_not_intro hp)] at h
        exact absurd h (by simp)
      · exact ⟨(missing_eq_nil_iff ex new).1 hm, hp⟩
    · rw [if_pos hm] at h
      exact absurd h (by simp)
  · intro hin
    obtain ⟨hall, hp⟩ := hin
    have hm : (ex.filter (fun k => !(new.contains k))).dedup = [] :=
      (missing_eq_nil_iff ex new).2 hall
    rw [validate_append_only, if_neg (not_not_intro hm), if_pos hp]

theorem validate_refl (l : List String) : validate_append_only l l = .ok () := by
  rw [validate_ok_iff]
  exact List.take_length ..


theorem readRows_cons (header row : List String) (rest : List (List String))
    (entries : List Entry) (seen : List String) :
    readRows header (row :: rest) entries seen
      = (if pyStrip (rowGet header row "key") = ""
          then readRows header rest entries seen
          else if pyStrip (rowGet header row "key") ∈ seen
            then .error (.duplicateKey (pyStrip (rowGet header row "key")))
            else readRows header rest (entries ++ [mkEntry header row])
              (seen ++ [pyStrip (rowGet header row "key")])) := rfl

theorem rowKeys_cons (header row : List String) (rest : List (List String)) :
    rowKeys header (row :: rest)
      = if pyStrip (rowGet header row "key") = "" then rowKeys header rest
        else pyStrip (rowGet header row "key") :: rowKeys header rest := by
  by_cases h : pyStrip (rowGet header row "key") = "" <;> simp [rowKeys, h]

theorem readRows_filter_empty (header : List String) (rows : List (List String))
    (entries : List Entry) (seen : List String) :
    readRows header
        (rows.filter (fun r => pyStrip (rowGet header r "key") ≠ "")) entries seen
      = readRows header rows entries seen := by
  induction rows generalizing entries seen with
  | nil => rfl
  | cons row rest ih =>
    by_cases h : pyStrip (rowGet header row "key") = ""
    · rw [List.filter_cons_of_neg (by simp [h]), ih, readRows_cons, if_pos h]
    · rw [List.filter_cons_of_pos (by simp [h]), readRows_cons, readRows_cons,
        if_neg h, if_neg h]
      by_cases hs : pyStrip (rowGet header row "key") ∈ seen
      · rw [if_pos hs, if_pos hs]
      · rw [if_neg hs, if_neg hs, ih]

theorem readRows_ok_seen (header : List String) (rows : List (List String))
    (entries : List Entry) (seen : List String) (entries2 : List Entry)
    (seen2 : List String)
    (h : readRows header rows entries seen = .ok (entries2, seen2)) :
    seen2 = seen ++ rowKeys header rows
      ∧ (rowKeys header rows).Nodup
      ∧ ∀ k ∈ rowKeys header rows, ¬ k ∈ seen := by
  induction rows generalizing entries seen with
  | nil =>
    rw [readRows] at h
    injection h with h2
    injection h2 with h3 h4
    simp [rowKeys, h4]
  | cons row rest ih =>
    rw [readRows_cons] at h
    by_cases hk : pyStrip (rowGet header row "key") = ""
    · rw [if_pos hk] at h
      rw [rowKeys_cons, if_pos hk]
      exact ih _ _ h
    · rw [if_neg hk] at h
      by_cases hs : pyStrip (rowGet header row "key") ∈ seen
      · rw [if_pos hs] at h
        exact absurd h (by simp)
      · rw [if_neg hs] at h
        obtain ⟨h1, h2, h3⟩ := ih _ _ h
        rw [rowKeys_cons, if_neg hk]
        refine ⟨by simpa [List.append_assoc] using h1, ?_, ?_⟩
        · rw [List.nodup_cons]
          refine ⟨fun hmem => ?_, h2⟩
          have := h3 _ hmem
          simp at this
        · intro k hk2
          rcases List.mem_cons.1 hk2 with rfl | hk3
          · exact hs
          · have := h3 _ hk3
            simp at this
            exact this.1

theorem readRows_error (header : List String) (rows : List (List String))
    (entries : List Entry) (seen : List String) (e : Err)
    (h : readRows header rows entries seen = .error e) :
    ∃ k, e = .duplicateKey k := by
  induction rows generalizing entries seen with
  | nil => exact absurd h (by simp [readRows])
  | cons row rest ih =>
    rw [readRows_cons] at h
    by_cases hk : pyStrip (rowGet header row "key") = ""
    · rw [if_pos hk] at h
      exact ih _ _ h
    · rw [if_neg hk] at h
      by_cases hs : pyStrip (rowGet header row "key") ∈ seen
      · rw [if_pos hs] at h
        injection h with h2
        exact ⟨_, h2.symm⟩
      · rw [if_neg hs] at h
        exact ih _ _ h

theorem readRows_ok_mem (header : List String) (rows : List (List String))
    (entries : List Entry) (seen : List String) (entries2 : List Entry)
    (seen2 : List String)
    (h : readRows header rows entries seen = .ok (entries2, seen2)) :
    ∀ x ∈ entries2, x ∈ entries ∨ ∃ row ∈ rows, x = mkEntry header row := by
  induction rows generalizing entries seen with
  | nil =>
    rw [readRows] at h
    injection h with h2
    injection h2 with h3 h4
    intro x hx
    exact Or.inl (h3 ▸ hx)
  | cons row rest ih =>
    rw [readRows_cons] at h
    by_cases hk : pyStrip (rowGet header row "key") = ""
    · rw [if_pos hk] at h
      intro x hx
      rcases ih _ _ h x hx with h1 | ⟨r, hr, hx2⟩
      · exact Or.inl h1
      · exact Or.inr ⟨r, List.mem_cons_of_mem _ hr, hx2⟩
    · rw [if_neg hk] at h
      by_cases hs : pyStrip (rowGet header row "key") ∈ seen
      · rw [if_pos hs] at h
        exact absurd h (by simp)
      · rw [if_neg hs] at h
        intro x hx
        rcases ih _ _ h x hx with h1 | ⟨r, hr, hx2⟩
        · rcases List.mem_append.1 h1 with h2 | h2
          · exact Or.inl h2
          · exact Or.inr ⟨row, List.mem_cons_self row rest, List.mem_singleton.1 h2⟩
        · exact Or.inr ⟨r, List.mem_cons_of_mem _ hr, hx2⟩

theorem allSourceKeys_cons (f : CSVFile) (rest : List CSVFile) :
    allSourceKeys (f :: rest) = rowKeys f.header f.rows ++ allSourceKeys rest := by
  simp [allSourceKeys]

theorem readFiles_ok_keys (files : List CSVFile) (entries : List Entry)
    (seen : List String) (entries2 : List Entry)
    (h : readFiles files entries seen = .ok entries2) :
    (allSourceKeys files).Nodup ∧ ∀ k ∈ allSourceKeys files, ¬ k ∈ seen := by
  induction files generalizing entries seen with
  | nil => simp [allSourceKeys]
  | cons f rest ih =>
    rw [readFiles] at h
    by_cases hky : "key" ∈ f.header
    · rw [if_pos hky] at h
      cases hr : readRows f.header f.rows entries seen with
      | error e => rw [hr] at h; exact absurd h (by simp)
      | ok p =>
        rw [hr] at h
        obtain ⟨s1, s2, s3⟩ := readRows_ok_seen _ _ _ _ _ _ hr
        obtain ⟨i1, i2⟩ := ih _ _ h
        rw [allSourceKeys_cons]
        constructor
        · rw [List.nodup_append]
          refine ⟨s2, i1, fun k hk1 hk2 => ?_⟩
          have := i2 k hk2
          rw [s1] at this
          exact this (List.mem_append.2 (Or.inr hk1))
        · intro k hkm
          rcases List.mem_append.1 hkm with h1 | h1
          · exact s3 k h1
          · have := i2 k h1
            rw [s1] at this
            intro hk2
            exact this (List.mem_append.2 (Or.inl hk2))
    · rw [if_neg hky] at h
      exact absurd h (by simp)

theorem readFiles_error (files : List CSVFile) (entries : List Entry)
    (seen : List String) (e : Err) (hky : ∀ f ∈ files, "key" ∈ f.header)
    (h : readFiles files entries seen = .error e) :
    ∃ k, e = .duplicateKey k := by
  induction files generalizing entries seen with
  | nil => exact absurd h (by simp [readFiles])
  | cons f rest ih =>
    rw [readFiles, if_pos (hky f (List.mem_cons_self f rest))] at h
    cases hr : readRows f.header f.rows entries seen with
    | error e2 =>
      rw [hr] at h
      injection h with h2
      exact h2 ▸ readRows_error _ _ _ _ _ hr
    | ok p =>
      rw [hr] at h
      exact ih _ _ (fun g hg => hky g (List.mem_cons_of_mem _ hg)) h

theorem readFiles_ok_mem (files : List CSVFile) (entries : List Entry)
    (seen : List String) (entries2 : List Entry)
    (h : readFiles files entries seen = .ok entries2) :
    ∀ x ∈ entries2, x ∈ entries
      ∨ ∃ f ∈ files, ∃ row ∈ f.rows, x = mkEntry f.header row := by
  induction files generalizing entries seen with
  | nil =>
    rw [readFiles] at h
    injection h with h2
    intro x hx
    exact Or.inl (h2 ▸ hx)
  | cons f rest ih =>
    rw [readFiles] at h
    by_cases hky : "key" ∈ f.header
    · rw [if_pos hky] at h
      cases hr : readRows f.header f.rows entries seen with
      | error e => rw [hr] at h; exact absurd h (by simp)
      | ok p =>
        rw [hr] at h
        intro x hx
        rcases ih _ _ h x hx with h1 | ⟨g, hg, r, hr2, hx2⟩
        · rcases readRows_ok_mem _ _ _ _ _ _ hr x h1 with h2 | ⟨r, hr2, hx2⟩
          · exact Or.inl h2
          · exact Or.inr ⟨f, List.mem_cons_self f rest, r, hr2, hx2⟩
        · exact Or.inr ⟨g, List.mem_cons_of_mem _ hg, r, hr2, hx2⟩
    · rw [if_neg hky] at h
      exact absurd h (by simp)

theorem mkEntry_nodup (header row : List String) :
    ((mkEntry header row).map Prod.fst).Nodup := by
  exact nodup_map_fst_foldl_insert pyStrip
    (fun c => pyStrip (rowGet header row c)) (outputFields header) [] (by simp)

theorem read_ok_entry_nodup (files : List CSVFile) (entries : List Entry)
    (h : read_csv_entries files = .ok entries) :
    ∀ e ∈ entries, ((e : Entry).map Prod.fst).Nodup := by
  intro e he
  cases files with
  | nil => exact absurd h (by simp [read_csv_entries])
  | cons f rest =>
    have h2 : readFiles (f :: rest) [] [] = .ok entries := h
    rcases readFiles_ok_mem _ _ _ _ h2 e he with h3 | ⟨g, _, r, _, hx⟩
    · exact absurd h3 (by simp)
    · rw [hx]
      exact mkEntry_nodup _ _


theorem newData_map_recordKey (entries : List Entry)
    (h : ∀ e ∈ entries, ((e : Entry).map Prod.fst).Nodup) :
    (newData entries).map recordKey = entries.map (fun e => entryGet e "key") :=
  newDataFrom_map_recordKey 0 entries h

theorem generate_mapping_read_error (files : List CSVFile) (existing : Option Doc)
    (r t : String) (e : Err) (h : read_csv_entries files = .error e) :
    generate_mapping files existing r t = .error e := by
  simp [generate_mapping, h]

theorem generate_mapping_empty (files : List CSVFile) (existing : Option Doc)
    (r t : String) (hread : read_csv_entries files = .ok []) :
    generate_mapping files existing r t = .error .emptySource := by
  simp [generate_mapping, hread]

theorem generate_mapping_val_error (files : List CSVFile) (ex : Doc) (r t : String)
    (entries : List Entry) (e : Err) (hread : read_csv_entries files = .ok entries)
    (hne : ¬ entries = [])
    (hval : validate_append_only (ex.data.map recordKey)
        (entries.map (fun x => entryGet x "key")) = .error e) :
    generate_mapping files (some ex) r t = .error e := by
  simp only [generate_mapping, hread]
  rw [if_neg hne]
  simp [hval]

theorem generate_mapping_none_eq (files : List CSVFile) (r t : String)
    (entries : List Entry) (hread : read_csv_entries files = .ok entries)
    (hne : ¬ entries = []) :
    generate_mapping files none r t = .ok (.wrote ⟨r, t, newData entries⟩) := by
  simp only [generate_mapping, hread]
  rw [if_neg hne]
  simp

theorem generate_mapping_some_eq (files : List CSVFile) (ex : Doc) (r t : String)
    (entries : List Entry) (hread : read_csv_entries files = .ok entries)
    (hne : ¬ entries = [])
    (hval : validate_append_only (ex.data.map recordKey)
        (entries.map (fun x => entryGet x "key")) = .ok ()) :
    generate_mapping files (some ex) r t
      = if ex.data = newData entries then .ok .skipped
        else .ok (.wrote ⟨r, t, newData entries⟩) := by
  simp only [generate_mapping, hread]
  rw [if_neg hne]
  simp only [hval]
  by_cases hd : ex.data = newData entries
  · simp [hd]
  · simp [hd]

/-- C3: a second pipeline run on unchanged source tables after any
successful run performs no write and leaves the stored document exactly
as the first run left it. -/
theorem C3_second_run_no_write (files : List CSVFile) (st : Option Doc)
    (ref ts1 ts2 : String) (st1 : Option Doc) (b : Bool)
    (h : runPipeline files st ref ts1 = .ok (st1, b)) :
    runPipeline files st1 ref ts2 = .ok (st1, false) := by
  cases hread : read_csv_entries files with
  | error e =>
    rw [runPipeline, generate_mapping_read_error _ _ _ _ _ hread] at h
    exact absurd h (by simp)
  | ok entries =>
    by_cases hne : entries = []
    · rw [hne] at hread
      rw [runPipeline, generate_mapping_empty _ _ _ _ hread] at h
      exact absurd h (by simp)
    · have hnodup := read_ok_entry_nodup files entries hread
      have hkeys : (newData entries).map recordKey
          = entries.map (fun e => entryGet e "key") :=
        newData_map_recordKey entries hnodup
      have hval2 : ∀ t : String, validate_append_only
          (((⟨ref, t, newData entries⟩ : Doc).data).map recordKey)
          (entries.map (fun x => entryGet x "key")) = .ok () := by
        intro t
        show validate_append_only ((newData entries).map recordKey)
          (entries.map (fun x => entryGet x "key")) = .ok ()
        rw [hkeys]
        exact validate_refl _
      cases st with
      | none =>
        rw [runPipeline, generate_mapping_none_eq _ _ _ _ hread hne] at h
        simp only [Except.ok.injEq, Prod.mk.injEq] at h
        obtain ⟨h1, h2⟩ := h
        subst h1
        rw [runPipeline,
          generate_mapping_some_eq _ _ _ _ _ hread hne (hval2 ts1), if_pos rfl]
      | some ex =>
        cases hval : validate_append_only (ex.data.map recordKey)
            (entries.map (fun x => entryGet x "key")) with
        | error e =>
          rw [runPipeline,
            generate_mapping_val_error _ _ _ _ _ _ hread hne hval] at h
          exact absurd h (by simp)
        | ok u =>
          cases u
          rw [runPipeline,
            generate_mapping_some_eq _ _ _ _ _ hread hne hval] at h
          by_cases hskip : ex.data = newData entries
          · rw [if_pos hskip] at h
            simp only [Except.ok.injEq, Prod.mk.injEq] at h
            obtain ⟨h1, h2⟩ := h
            subst h1
            rw [runPipeline,
              generate_mapping_some_eq _ _ _ _ _ hread hne hval, if_pos hskip]
          · rw [if_neg hskip] at h
            simp only [Except.ok.injEq, Prod.mk.injEq] at h
            obtain ⟨h1, h2⟩ := h
            subst h1
            rw [runPipeline,
              generate_mapping_some_eq _ _ _ _ _ hread hne (hval2 ts1), if_pos rfl]


theorem getElem?_mem_of_eq {α : Type} (l : List α) (i : Nat) (a : α)
    (h : l[i]? = some a) : a ∈ l := by
  obtain ⟨h2, h3⟩ := List.getElem?_eq_some_iff.1 h
  exact h3 ▸ List.getElem_mem h2

theorem newData_id_dense (entries : List Entry)
    (hnoid : ∀ e ∈ entries, lookupOD e "id" = none) (i : Nat) (r : Record)
    (hr : (newData entries)[i]? = some r) :
    lookupOD r "id" = some (JVal.nat i) := by
  rw [newData, newDataFrom_getElem?] at hr
  cases he : entries[i]? with
  | none => rw [he] at hr; simp at hr
  | some e =>
    rw [he] at hr
    simp only [Option.map_some'] at hr
    have hmem : e ∈ entries := getElem?_mem_of_eq _ _ _ he
    injection hr with hr2
    rw [← hr2]
    simpa using lookupOD_buildRecord_id (hnoid e hmem) (0 + i)

theorem mkEntry_map_fst (header row : List String) :
    (mkEntry header row).map Prod.fst
      = pyAddAll [] ((outputFields header).map pyStrip) := by
  have h := map_fst_foldl_insert pyStrip
    (fun c => pyStrip (rowGet header row c)) (outputFields header) []
  exact h.trans (by rw [pyAddAll, List.foldl_map]; rfl)

theorem buildRecord_map_fst (i : Nat) (e : Entry) :
    (buildRecord i e).map Prod.fst = pyAddAll ["id"] (e.map Prod.fst) := by
  have h := map_fst_foldl_insert Prod.fst
    (fun p : String × String => JVal.str p.2) e [("id", JVal.nat i)]
  exact h.trans (by rw [pyAddAll, List.foldl_map]; rfl)

theorem mem_pyAddAll (init l : List String) (k : String) (h : k ∈ pyAddAll init l) :
    k ∈ init ∨ k ∈ l := by
  induction l generalizing init with
  | nil => exact Or.inl h
  | cons c l ih =>
    rw [pyAddAll, List.foldl_cons] at h
    rcases ih _ h with h1 | h1
    · by_cases hc : c ∈ init
      · rw [if_pos hc] at h1
        exact Or.inl h1
      · rw [if_neg hc] at h1
        rcases List.mem_append.1 h1 with h2 | h2
        · exact Or.inl h2
        · exact Or.inr (List.mem_singleton.1 h2 ▸ List.mem_cons_self c l)
    · exact Or.inr (List.mem_cons_of_mem _ h1)

theorem dropEmptyKeyRows_header (f : CSVFile) :
    (dropEmptyKeyRows f).header = f.header := rfl

theorem dropEmptyKeyRows_rows (f : CSVFile) :
    (dropEmptyKeyRows f).rows
      = f.rows.filter (fun r => pyStrip (rowGet f.header r "key") ≠ "") := rfl

theorem readFiles_drop_empty (files : List CSVFile) (entries : List Entry)
    (seen : List String) :
    readFiles (files.map dropEmptyKeyRows) entries seen
      = readFiles files entries seen := by
  induction files generalizing entries seen with
  | nil => rfl
  | cons f rest ih =>
    rw [List.map_cons, readFiles, readFiles, dropEmptyKeyRows_header,
      dropEmptyKeyRows_rows, readRows_filter_empty]
    by_cases hky : "key" ∈ f.header
    · rw [if_pos hky, if_pos hky]
      cases hr : readRows f.header f.rows entries seen with
      | error e => rfl
      | ok p =>
        obtain ⟨e2, s2⟩ := p
        exact ih e2 s2
    · rw [if_neg hky, if_neg hky]
      rfl

/-- C1: the append-only validator accepts exactly when the first
`len(existingKeys)` elements of `newKeys` equal `existingKeys`
position-for-position; it fails with `RemovedKeyError` exactly when some
existing key occurs nowhere in `newKeys`; and it fails with
`ReorderedKeyError` exactly when every existing key occurs in `newKeys`
but the prefix of that length differs. -/
theorem C1_validator_characterization (ex new : List String) :
    (validate_append_only ex new = .ok () ↔ new.take ex.length = ex)
    ∧ ((∃ ms, validate_append_only ex new = .error (.removedKey ms))
        ↔ ∃ k, k ∈ ex ∧ ¬ k ∈ new)
    ∧ (validate_append_only ex new = .error .reorderedKey
        ↔ (∀ k ∈ ex, k ∈ new) ∧ ¬ new.take ex.length = ex) :=
  ⟨validate_ok_iff ex new, validate_removed_iff ex new, validate_reordered_iff ex new⟩

/-- C7: whenever the validator rejects with `RemovedKeyError`, the
reported key set contains exactly the existing keys absent from the new
key list. -/
theorem C7_removed_reports_all_missing (ex new ms : List String)
    (h : validate_append_only ex new = .error (.removedKey ms)) :
    ∀ k, k ∈ ms ↔ k ∈ ex ∧ ¬ k ∈ new := by
  rw [validate_append_only] at h
  by_cases hm : (ex.filter (fun k => !(new.contains k))).dedup = []
  · rw [if_neg (not_not_intro hm)] at h
    by_cases hp : new.take ex.length = ex
    · rw [if_neg (not_not_intro hp)] at h
      exact absurd h (by simp)
    · rw [if_pos hp] at h
      exact absurd h (by simp)
  · rw [if_pos hm] at h
    injection h with h2
    injection h2 with h3
    intro k
    rw [← h3]
    exact mem_missing_iff ex new k

theorem C7_witness :
    ("b" ∈ (["b"] : List String)
      ↔ "b" ∈ (["a", "b", "c"] : List String) ∧ ¬ "b" ∈ (["a", "c"] : List String)) :=
  C7_removed_reports_all_missing ["a", "b", "c"] ["a", "c"] ["b"] rfl "b"


/-- C2: when the validator accepts, each key of the (dense-ID) prior
document keeps its position and its ID in the regenerated data array,
and IDs form the dense sequence 0,1,2,... in first-seen order (so new
keys receive the fresh sequential IDs from `len(existingKeys)` up). -/
theorem C2_stable_ids (entries : List Entry) (prior : Doc)
    (hnodup : ∀ e ∈ entries, ((e : Entry).map Prod.fst).Nodup)
    (hnoid : ∀ e ∈ entries, lookupOD e "id" = none)
    (hprior : prior.data.map (fun r => lookupOD r "id")
        = (List.range prior.data.length).map (fun i => some (JVal.nat i)))
    (hacc : validate_append_only (prior.data.map recordKey)
        (entries.map (fun e => entryGet e "key")) = .ok ()) :
    (∀ i r, (newData entries)[i]? = some r → lookupOD r "id" = some (JVal.nat i))
    ∧ (∀ i, i < prior.data.length →
        ((newData entries)[i]?).map recordKey = (prior.data[i]?).map recordKey
        ∧ ((newData entries)[i]?).bind (fun r => lookupOD r "id")
            = (prior.data[i]?).bind (fun r => lookupOD r "id")) := by
  have hpre := (validate_ok_iff _ _).1 hacc
  have hlen : prior.data.length ≤ entries.length := by
    have h1 := congrArg List.length hpre
    simp [List.length_take] at h1
    omega
  refine ⟨newData_id_dense entries hnoid, ?_⟩
  intro i hi
  have hilt : i < entries.length := lt_of_lt_of_le hi hlen
  obtain ⟨e, he⟩ : ∃ e, entries[i]? = some e := ⟨_, List.getElem?_eq_getElem hilt⟩
  have hemem : e ∈ entries := getElem?_mem_of_eq _ _ _ he
  have hnd : (newData entries)[i]? = some (buildRecord i e) := by
    rw [newData, newDataFrom_getElem?, he]
    simp
  constructor
  · have hrhs : (prior.data[i]?).map recordKey = (prior.data.map recordKey)[i]? :=
      (List.getElem?_map ..).symm
    rw [hnd, hrhs, ← hpre, List.getElem?_take, if_pos (by simpa using hi),
      List.getElem?_map, he]
    simp [recordKey_buildRecord (hnodup e hemem) i]
  · obtain ⟨r2, hr2⟩ : ∃ r2, prior.data[i]? = some r2 :=
      ⟨_, List.getElem?_eq_getElem hi⟩
    have h2 : (prior.data.map (fun r => lookupOD r "id"))[i]?
        = some (some (JVal.nat i)) := by
      rw [hprior, List.getElem?_map]
      simp [List.getElem?_range, hi]
    rw [List.getElem?_map, hr2] at h2
    simp only [Option.map_some'] at h2
    injection h2 with h3
    rw [hnd, hr2]
    simp [lookupOD_buildRecord_id (hnoid e hemem) i, h3]

theorem C2_witness :
    ((newData [[("key", "a")], [("key", "b")]])[0]?).map recordKey
      = (((⟨"./s", "T0",
          [[("id", JVal.nat 0), ("key", JVal.str "a")]]⟩ : Doc)).data[0]?).map recordKey :=
  ((C2_stable_ids [[("key", "a")], [("key", "b")]]
    ⟨"./s", "T0", [[("id", JVal.nat 0), ("key", JVal.str "a")]]⟩
    (by decide) (by decide) rfl rfl).2 0 (by decide)).1

/-- C4: the claimed write atomicity fails on the code: `write_json`
opens the destination with truncating mode `"w"` before any content is
written, so among the intermediate file states there is one (the empty
truncated file) that is neither the prior content nor the completed new
content. -/
theorem C4_write_truncates_prior :
    ∃ s ∈ write_json_states "prior content" "new content",
      ¬ s = "prior content" ∧ ¬ s = "new content" ++ "\x0a" := by
  refine ⟨"", ?_, by decide, by decide⟩
  simp [write_json_states]

/-- C5: with no prior document, any non-empty entry list is accepted and
written as a document whose data array carries dense IDs from 0 in
first-seen entry order. -/
theorem C5_fresh_initialization (files : List CSVFile) (entries : List Entry)
    (r t : String) (hread : read_csv_entries files = .ok entries)
    (hne : ¬ entries = [])
    (hnoid : ∀ e ∈ entries, lookupOD e "id" = none) :
    generate_mapping files none r t = .ok (.wrote ⟨r, t, newData entries⟩)
    ∧ (∀ i rec, (newData entries)[i]? = some rec →
        lookupOD rec "id" = some (JVal.nat i))
    ∧ (newData entries).map recordKey
        = entries.map (fun e => entryGet e "key") :=
  ⟨generate_mapping_none_eq _ _ _ _ hread hne,
    newData_id_dense entries hnoid,
    newData_map_recordKey entries (read_ok_entry_nodup _ _ hread)⟩

theorem C5_witness :
    generate_mapping [⟨"a.csv", ["key", "displayName", "comment"],
        [["a", "NameA", "x"], ["b", "NameB", "y"]]⟩] none "./s.json" "T1"
      = .ok (.wrote ⟨"./s.json", "T1",
          newData [[("key", "a"), ("displayName", "NameA")],
            [("key", "b"), ("displayName", "NameB")]]⟩) :=
  (C5_fresh_initialization
    [⟨"a.csv", ["key", "displayName", "comment"],
      [["a", "NameA", "x"], ["b", "NameB", "y"]]⟩]
    [[("key", "a"), ("displayName", "NameA")],
      [("key", "b"), ("displayName", "NameB")]]
    "./s.json" "T1" rfl (by decide) (by decide)).1

/-- C6: if the same non-empty trimmed key occurs in two data rows of the
source table set (within one file or across files, counted cumulatively
over all files), the reader fails with a `DuplicateKeyError`. -/
theorem C6_duplicate_rejected (files : List CSVFile) (k : String)
    (hky : ∀ f ∈ files, "key" ∈ f.header)
    (hdup : 2 ≤ (allSourceKeys files).count k) :
    ∃ k2, read_csv_entries files = .error (.duplicateKey k2) := by
  cases files with
  | nil => simp [allSourceKeys] at hdup
  | cons f rest =>
    cases hres : read_csv_entries (f :: rest) with
    | ok entries =>
      exfalso
      have h2 : readFiles (f :: rest) [] [] = .ok entries := hres
      have hnd := (readFiles_ok_keys _ _ _ _ h2).1
      have := List.nodup_iff_count_le_one.1 hnd k
      omega
    | error e =>
      have h2 : readFiles (f :: rest) [] [] = .error e := hres
      obtain ⟨k2, hk2⟩ := readFiles_error _ _ _ _ hky h2
      exact ⟨k2, by rw [hk2]⟩

theorem C6_witness :
    ∃ k2, read_csv_entries
        [⟨"a.csv", ["key", "displayName"], [["x", "one"]]⟩,
         ⟨"b.csv", ["key", "displayName"], [["x", "two"]]⟩]
      = .error (.duplicateKey k2) :=
  C6_duplicate_rejected
    [⟨"a.csv", ["key", "displayName"], [["x", "one"]]⟩,
     ⟨"b.csv", ["key", "displayName"], [["x", "two"]]⟩]
    "x" (by decide) (by decide)

/-- C8: every produced entry carries exactly the trimmed non-ignored
header columns of its source file, in header order (first occurrence
kept); the corresponding record prepends `id`; and no record field is
named `comment`. -/
theorem C8_comment_stripped (files : List CSVFile) (entries : List Entry)
    (hread : read_csv_entries files = .ok entries) :
    ∀ e ∈ entries, ∀ i : Nat,
      (∃ f ∈ files, (e : Entry).map Prod.fst
          = pyAddAll [] ((outputFields f.header).map pyStrip))
      ∧ (buildRecord i e).map Prod.fst = pyAddAll ["id"] ((e : Entry).map Prod.fst)
      ∧ ¬ "comment" ∈ (buildRecord i e).map Prod.fst := by
  intro e he i
  have hprov : ∃ f ∈ files, ∃ row ∈ f.rows, e = mkEntry f.header row := by
    cases files with
    | nil => exact absurd hread (by simp [read_csv_entries])
    | cons f rest =>
      have h2 : readFiles (f :: rest) [] [] = .ok entries := hread
      rcases readFiles_ok_mem _ _ _ _ h2 e he with h3 | h3
      · exact absurd h3 (by simp)
      · exact h3
  obtain ⟨f, hf, row, hrow, hx⟩ := hprov
  refine ⟨⟨f, hf, by rw [hx, mkEntry_map_fst]⟩, buildRecord_map_fst i e, ?_⟩
  intro hcmem
  rcases mem_pyAddAll _ _ _ ((buildRecord_map_fst i e) ▸ hcmem) with h1 | h1
  · simp at h1
  · rw [hx, mkEntry_map_fst] at h1
    rcases mem_pyAddAll _ _ _ h1 with h2 | h2
    · simp at h2
    · obtain ⟨c, hc, hcs⟩ := List.mem_map.1 h2
      have hfilt := List.of_mem_filter hc
      rw [hcs] at hfilt
      simp [IGNORED_COLUMNS] at hfilt

theorem C8_witness :
    ((∃ f ∈ [(⟨"a.csv", ["key", "displayName", "comment"],
          [["a", "NameA", "x"]]⟩ : CSVFile)],
        ([(("key" : String), ("a" : String)), ("displayName", "NameA")] : Entry).map Prod.fst
          = pyAddAll [] ((outputFields f.header).map pyStrip))
      ∧ (buildRecord 0 [("key", "a"), ("displayName", "NameA")]).map Prod.fst
          = pyAddAll ["id"] (([(("key" : String), ("a" : String)), ("displayName", "NameA")] : Entry).map Prod.fst)
      ∧ ¬ "comment" ∈ (buildRecord 0 [("key", "a"), ("displayName", "NameA")]).map Prod.fst) :=
  C8_comment_stripped
    [⟨"a.csv", ["key", "displayName", "comment"], [["a", "NameA", "x"]]⟩]
    [[("key", "a"), ("displayName", "NameA")]] rfl
    [("key", "a"), ("displayName", "NameA")] (by decide) 0

/-- C9: the skip-write decision compares only the generated data array
with the stored one: when they are equal the run performs no write for
any caller-supplied schema reference and timestamp, leaving the stored
document (including its schema reference and lastUpdated) unchanged. -/
theorem C9_skip_ignores_schema (files : List CSVFile) (entries : List Entry)
    (ex : Doc) (hread : read_csv_entries files = .ok entries)
    (hne : ¬ entries = []) (hdata : ex.data = newData entries) :
    ∀ r t : String, runPipeline files (some ex) r t = .ok (some ex, false) := by
  intro r t
  have hval : validate_append_only (ex.data.map recordKey)
      (entries.map (fun x => entryGet x "key")) = .ok () := by
    rw [hdata, newData_map_recordKey entries (read_ok_entry_nodup _ _ hread)]
    exact validate_refl _
  rw [runPipeline, generate_mapping_some_eq _ _ _ _ _ hread hne hval,
    if_pos hdata]

theorem C9_witness :
    ¬ "./new-schema.json" = "./old-schema.json"
    ∧ runPipeline [⟨"a.csv", ["key"], [["a"]]⟩]
        (some ⟨"./old-schema.json", "T0",
          [[("id", JVal.nat 0), ("key", JVal.str "a")]]⟩)
        "./new-schema.json" "T9"
      = .ok (some ⟨"./old-schema.json", "T0",
          [[("id", JVal.nat 0), ("key", JVal.str "a")]]⟩, false) :=
  ⟨by decide,
    C9_skip_ignores_schema [⟨"a.csv", ["key"], [["a"]]⟩] [[("key", "a")]]
      ⟨"./old-schema.json", "T0", [[("id", JVal.nat 0), ("key", JVal.str "a")]]⟩
      rfl (by decide) rfl "./new-schema.json" "T9"⟩

/-- C10: data rows whose key is empty after trimming are skipped
silently: removing them from every file leaves the reader's result
unchanged, so they contribute no entry, are never recorded as seen, and
never cause a `DuplicateKeyError`. -/
theorem C10_empty_key_rows_skipped (files : List CSVFile) :
    read_csv_entries (files.map dropEmptyKeyRows) = read_csv_entries files := by
  cases files with
  | nil => rfl
  | cons f rest =>
    show readFiles ((f :: rest).map dropEmptyKeyRows) [] []
      = readFiles (f :: rest) [] []
    exact readFiles_drop_empty _ _ _

theorem C3_witness :
    runPipeline [⟨"a.csv", ["key"], [["a"]]⟩]
        (some ⟨"./s", "T1", [[("id", JVal.nat 0), ("key", JVal.str "a")]]⟩)
        "./s" "T2"
      = .ok (some ⟨"./s", "T1", [[("id", JVal.nat 0), ("key", JVal.str "a")]]⟩, false) :=
  C3_second_run_no_write [⟨"a.csv", ["key"], [["a"]]⟩] none "./s" "T1" "T2"
    (some ⟨"./s", "T1", [[("id", JVal.nat 0), ("key", JVal.str "a")]]⟩) true rfl

end SchemaGen
